import Mathlib

/-!
Shallow embedding of the price-fetcher microservice core
(package `internal/service`: `service.go`, `alpha_vantage.go`, `alerts.go`).

Conventions of the embedding:
* Go `float64` prices and thresholds are modelled as `Rat` (the claims only
  use order comparisons and decimal literals, where `Rat` agrees with IEEE
  comparison on the values involved).
* Go `time.Time` instants are modelled as `Nat`; `t1.After(t2)` is `t2 < t1`.
* Go maps (`map[string]cacheEntry`, `map[string]*Alert`, `map[string]float64`)
  are modelled as association lists with overwrite-on-insert; map assignment
  `m[k] = v` is "erase `k`, then cons `(k, v)`".
* Fallible Go calls `(T, error)` are modelled as `Except String T`.
* The nondeterministic iteration order of a Go map is modelled by taking the
  iteration order as an explicit input list.
-/

/-- One daily candle of `types.HistoricalPricePoint`. -/
structure HistoricalPricePoint where
  date : String
  openPrice : Rat
  highPrice : Rat
  lowPrice : Rat
  closePrice : Rat
deriving DecidableEq, Repr

/-! ## Mock fetchers (`internal/service/service.go`) -/

/-- The package-level `priceMocks` map of `service.go`. -/
def priceMocks (ticker : String) : Option Rat :=
  if ticker = "AAPL" then some 150
  else if ticker = "MSFT" then some 300
  else if ticker = "GOOGL" then some 2800
  else none

/-- `MockPriceFetcher` of `service.go`: look the ticker up in `priceMocks`,
error when absent. -/
def MockPriceFetcher (ticker : String) : Except String Rat :=
  match priceMocks ticker with
  | some p => Except.ok p
  | none => Except.error ("price not found for " ++ ticker)

/-- `true` when `MockPriceFetcher` resolves the ticker. -/
def fetchOk (ticker : String) : Bool :=
  match MockPriceFetcher ticker with
  | Except.ok _ => true
  | Except.error _ => false

/-- Go map assignment `results[t] = price` on the association-list model. -/
def mapSet (k : String) (v : Rat) (m : List (String × Rat)) : List (String × Rat) :=
  (k, v) :: m.filter (fun p => ! decide (p.1 = k))

/-- Association-list read of the results map. -/
def lookupPrice (k : String) : List (String × Rat) → Option Rat
  | [] => none
  | (k2, v) :: rest => if k2 = k then some v else lookupPrice k rest

/-- The `for _, ticker := range tickers` loop body of `MockBatchPriceFetcher`:
on success store the price into the results map, on failure append the error
to the errors slice and continue with the next ticker. -/
def mockBatchGo (acc : List (String × Rat) × List String) :
    List String → List (String × Rat) × List String
  | [] => acc
  | t :: rest =>
    match MockPriceFetcher t with
    | Except.ok p => mockBatchGo (mapSet t p acc.1, acc.2) rest
    | Except.error e => mockBatchGo (acc.1, acc.2 ++ [e]) rest

/-- The `(results, errors)` pair accumulated by `MockBatchPriceFetcher`
before its final verdict. -/
def mockBatchAccum (tickers : List String) : List (String × Rat) × List String :=
  mockBatchGo ([], []) tickers

/-- `MockBatchPriceFetcher` of `service.go`: iterate all tickers, then fail
overall only when `len(results) == 0 && len(errors) > 0`; otherwise return
the results map (the collected errors are dropped from the return value). -/
def MockBatchPriceFetcher (tickers : List String) : Except String (List (String × Rat)) :=
  if (mockBatchAccum tickers).1.length = 0 ∧ 0 < (mockBatchAccum tickers).2.length then
    Except.error "failed to fetch prices for any ticker"
  else
    Except.ok (mockBatchAccum tickers).1

/-- `MockPriceHistoryFetcher` of `service.go`: five hand-written candles
around the mocked base price, in ascending date order. -/
def MockPriceHistoryFetcher (ticker : String) : Except String (List HistoricalPricePoint) :=
  match priceMocks ticker with
  | none => Except.error ("ticker not found: " ++ ticker)
  | some basePrice =>
    Except.ok
      [ ⟨"2024-01-01", basePrice - 5, basePrice + 5, basePrice - 10, basePrice - 2⟩,
        ⟨"2024-01-02", basePrice - 2, basePrice + 3, basePrice - 5, basePrice + 1⟩,
        ⟨"2024-01-03", basePrice + 1, basePrice + 8, basePrice - 3, basePrice + 5⟩,
        ⟨"2024-01-04", basePrice + 5, basePrice + 10, basePrice, basePrice + 3⟩,
        ⟨"2024-01-05", basePrice + 3, basePrice + 7, basePrice + 1, basePrice + 6⟩ ]

/-! ## Expiring cache (`internal/service/alpha_vantage.go`) -/

/-- `cacheEntry` of `alpha_vantage.go`; absent fields keep Go's zero value. -/
structure cacheEntry where
  price : Rat := 0
  history : List HistoricalPricePoint := []
  expiry : Nat
deriving DecidableEq, Repr

/-- The cache store `map[string]cacheEntry`, as an association list. -/
abbrev Store : Type := List (String × cacheEntry)

/-- Map read `entry, exists := s.cache[key]`. -/
def lookupKey (k : String) : Store → Option cacheEntry
  | [] => none
  | (k2, e) :: rest => if k2 = k then some e else lookupKey k rest

/-- Map assignment `s.cache[key] = entry`. -/
def cacheSet (k : String) (e : cacheEntry) (store : Store) : Store :=
  (k, e) :: List.filter (fun p => ! decide (p.1 = k)) store

/-- Well-formedness of the association-list model of a Go map:
every key occurs at most once. -/
def CacheWF (store : Store) : Prop :=
  (List.map Prod.fst store).Nodup

instance (store : Store) : Decidable (CacheWF store) :=
  inferInstanceAs (Decidable ((List.map Prod.fst store).Nodup))

/-- `evictExpired`: delete every entry with `now.After(entry.expiry)`,
i.e. keep an entry iff `entry.expiry < now` is false. -/
def evictExpired (now : Nat) (store : Store) : Store :=
  List.filter (fun p => ! decide (p.2.expiry < now)) store

/-- Ordering used by `evictOldest`'s sort: ascending expiry. -/
def expiryLE (a b : String × cacheEntry) : Prop :=
  a.2.expiry ≤ b.2.expiry

instance : DecidableRel expiryLE :=
  fun a b => inferInstanceAs (Decidable (a.2.expiry ≤ b.2.expiry))

instance : IsTotal (String × cacheEntry) expiryLE :=
  ⟨fun a b => Nat.le_total a.2.expiry b.2.expiry⟩

instance : IsTrans (String × cacheEntry) expiryLE :=
  ⟨fun _ _ _ => Nat.le_trans⟩

/-- `numToRemove := len(entries) / 10`, floored at `1`. -/
def numToRemove (n : Nat) : Nat :=
  if n / 10 < 1 then 1 else n / 10

/-- `evictOldest` of `alpha_vantage.go`: sort all entries by ascending
expiry and delete the keys of the first `numToRemove` of them. -/
def evictOldest (store : Store) : Store :=
  if store.length = 0 then store
  else
    let sorted := List.insertionSort expiryLE store
    let toRemove := List.map Prod.fst (sorted.take (numToRemove store.length))
    List.filter (fun p => ! decide (p.1 ∈ toRemove)) store

/-- The shared write path of `setCachedPrice` / `setCachedHistory` after the
expired sweep: capacity eviction runs only when still at capacity. -/
def capacityStage (maxSize : Nat) (store : Store) : Store :=
  if maxSize ≤ store.length then evictOldest store else store

/-- `setCachedPrice`: sweep expired entries, evict oldest while at capacity,
then store the new price entry with expiry `now + ttl`. -/
def setCachedPrice (now ttl maxSize : Nat) (ticker : String) (price : Rat)
    (store : Store) : Store :=
  cacheSet ticker { price := price, expiry := now + ttl }
    (capacityStage maxSize (evictExpired now store))

/-- `setCachedHistory`: same write path, storing a history entry. -/
def setCachedHistory (now ttl maxSize : Nat) (key : String)
    (history : List HistoricalPricePoint) (store : Store) : Store :=
  cacheSet key { history := history, expiry := now + ttl }
    (capacityStage maxSize (evictExpired now store))

/-- `getCachedPrice`: absent when the key is missing or when
`time.Now().After(entry.expiry)` (strictly past expiry). -/
def getCachedPrice (now : Nat) (ticker : String) (store : Store) : Option Rat :=
  match lookupKey ticker store with
  | none => none
  | some e => if e.expiry < now then none else some e.price

/-- `getCachedHistory`: same read-time check on a history entry. -/
def getCachedHistory (now : Nat) (key : String) (store : Store) :
    Option (List HistoricalPricePoint) :=
  match lookupKey key store with
  | none => none
  | some e => if e.expiry < now then none else some e.history

/-- One cache insertion, as issued by the fetch paths. -/
inductive CacheOp where
  | priceOp (ticker : String) (price : Rat)
  | historyOp (key : String) (history : List HistoricalPricePoint)

/-- Apply one timestamped insertion to the store. -/
def applyOp (ttl maxSize : Nat) (op : Nat × CacheOp) (store : Store) : Store :=
  match op.2 with
  | CacheOp.priceOp t p => setCachedPrice op.1 ttl maxSize t p store
  | CacheOp.historyOp k h => setCachedHistory op.1 ttl maxSize k h store

/-- Apply a sequence of timestamped insertions in order. -/
def applyOps (ttl maxSize : Nat) (ops : List (Nat × CacheOp)) (store : Store) : Store :=
  ops.foldl (fun s op => applyOp ttl maxSize op s) store

/-! ## Alert registry and evaluator (`internal/service/alerts.go`) -/

/-- `AlertCondition`: the two comparison kinds. -/
inductive AlertCondition where
  | above
  | below
deriving DecidableEq, Repr

/-- Rendering of the condition constants `"above"` / `"below"`. -/
def condString : AlertCondition → String
  | AlertCondition.above => "above"
  | AlertCondition.below => "below"

/-- `Alert` of `alerts.go`. -/
structure Alert where
  id : String
  ticker : String
  condition : AlertCondition
  threshold : Rat
  webhookURL : String
  active : Bool
  createdAt : Nat
  triggeredAt : Option Nat
deriving DecidableEq, Repr

/-- Go's `%.2f` rounding of the threshold: the integer number of hundredths
nearest to `q` (ties settled upward; the claims never hit an exact tie). -/
def round2f (q : Rat) : Int :=
  ⌊q * 100 + 1 / 2⌋

/-- Decimal rendering of `%.2f` from the rounded hundredths. -/
def format2f (q : Rat) : String :=
  let n := round2f q
  let a := n.natAbs
  let sign := if n < 0 then "-" else ""
  let frac := a % 100
  sign ++ toString (a / 100) ++ "." ++ (if frac < 10 then "0" else "") ++ toString frac

/-- `alertID := fmt.Sprintf("%s-%s-%.2f", ticker, condition, threshold)`. -/
def alertID (ticker : String) (condition : AlertCondition) (threshold : Rat) : String :=
  ticker ++ "-" ++ condString condition ++ "-" ++ format2f threshold

/-- The alert registry `map[string]*Alert`, as an association list. -/
abbrev Registry : Type := List (String × Alert)

/-- Map assignment `s.alerts[alertID] = alert`. -/
def regSet (id : String) (a : Alert) (reg : Registry) : Registry :=
  (id, a) :: List.filter (fun p => ! decide (p.1 = id)) reg

/-- Map read of the registry. -/
def lookupAlert (id : String) : Registry → Option Alert
  | [] => none
  | (k, a) :: rest => if k = id then some a else lookupAlert id rest

/-- Number of registry entries stored under a given id. -/
def countKey (id : String) (reg : Registry) : Nat :=
  (List.filter (fun p => decide (p.1 = id)) reg).length

/-- `CreateAlert` of `alerts.go`: derive the id from the
(ticker, condition, threshold) triple and overwrite the registry slot. -/
def CreateAlert (now : Nat) (ticker : String) (condition : AlertCondition)
    (threshold : Rat) (webhookURL : String) (reg : Registry) : Alert × Registry :=
  let id := alertID ticker condition threshold
  let alert : Alert :=
    { id := id, ticker := ticker, condition := condition, threshold := threshold,
      webhookURL := webhookURL, active := true, createdAt := now, triggeredAt := none }
  (alert, regSet id alert reg)

/-- The trigger predicate of `CheckAlerts`:
`price > threshold` for `above`, `price < threshold` for `below`. -/
def alertTriggered (condition : AlertCondition) (price threshold : Rat) : Bool :=
  match condition with
  | AlertCondition.above => decide (threshold < price)
  | AlertCondition.below => decide (price < threshold)

/-- `sendWebhook`: an empty webhook URL is an immediate nil error; otherwise
the HTTP delivery outcome is the environment's `deliver` verdict. -/
def sendWebhook (deliver : String → Bool) (a : Alert) (_price : Rat) : Bool :=
  if a.webhookURL = "" then true
  else deliver a.webhookURL

/-- One alert's treatment inside the `CheckAlerts` loop. Besides the updated
alert it returns the list of `sendWebhook` invocations this alert caused,
as `(alert id, observed price, delivery outcome)` records; the delivery
outcome is never consulted by the state transition (failures are only
logged). -/
def checkAlertStep (deliver : String → Bool) (fetch : String → Option Rat)
    (now : Nat) (a : Alert) : Alert × List (String × Rat × Bool) :=
  if a.active = false then (a, [])
  else
    match fetch a.ticker with
    | none => (a, [])
    | some price =>
      if alertTriggered a.condition price a.threshold then
        ({ a with active := false, triggeredAt := some now },
         [(a.id, price, sendWebhook deliver a price)])
      else (a, [])

/-- `CheckAlerts`: evaluate every alert in the registry snapshot, collecting
the updated alerts and all webhook invocations of the pass. -/
def CheckAlerts (deliver : String → Bool) (fetch : String → Option Rat)
    (now : Nat) (alerts : List Alert) : List Alert × List (String × Rat × Bool) :=
  (alerts.map (fun a => (checkAlertStep deliver fetch now a).1),
   alerts.flatMap (fun a => (checkAlertStep deliver fetch now a).2))

/-! ## History fetch (`FetchPriceHistory` of `alpha_vantage.go`) -/

/-- One raw candle of the upstream `TIME_SERIES_DAILY` payload. -/
structure DailyPoint where
  rawOpen : Rat
  rawHigh : Rat
  rawLow : Rat
  rawClose : Rat
deriving DecidableEq, Repr

/-- Go's `<` on strings: byte-wise lexicographic comparison, here on the
character lists (the dates involved are ASCII, where the two agree). -/
def charListLt : List Char → List Char → Bool
  | [], [] => false
  | [], _ :: _ => true
  | _ :: _, [] => false
  | a :: as, b :: bs =>
    if a.val < b.val then true
    else if b.val < a.val then false
    else charListLt as bs

/-- Go string comparison `s < t`. -/
def goStrLt (s t : String) : Bool :=
  charListLt s.data t.data

/-- Pure core of `FetchPriceHistory` after the payload is decoded: the input
list is the (nondeterministic) iteration order of the Go map holding the
time series. The loop keeps in-range dates in iteration order, and the
final swap loop reverses the accumulated slice. -/
def fetchPriceHistoryCore (iter : List (String × DailyPoint))
    (fromDate toDate : String) : List HistoricalPricePoint :=
  (List.map
    (fun p => HistoricalPricePoint.mk p.1 p.2.rawOpen p.2.rawHigh p.2.rawLow p.2.rawClose)
    (iter.filter (fun p =>
      ! (decide (fromDate ≠ "") && goStrLt p.1 fromDate)
      && ! (decide (toDate ≠ "") && goStrLt toDate p.1)))).reverse

/-- Dates of a history slice are in strictly ascending Go-string order. -/
def datesAscending : List HistoricalPricePoint → Bool
  | [] => true
  | [_] => true
  | a :: b :: rest => goStrLt a.date b.date && datesAscending (b :: rest)

/-! ## Helper lemmas: cache well-formedness and eviction counting -/

theorem cacheWF_filter (f : String × cacheEntry → Bool) (s : Store) (h : CacheWF s) :
    CacheWF (List.filter f s) :=
  List.Nodup.sublist (List.Sublist.map Prod.fst (List.filter_sublist s)) h

theorem cacheWF_evictExpired (now : Nat) (s : Store) (h : CacheWF s) :
    CacheWF (evictExpired now s) :=
  cacheWF_filter _ s h

theorem cacheWF_evictOldest (s : Store) (h : CacheWF s) : CacheWF (evictOldest s) := by
  unfold evictOldest
  by_cases h0 : s.length = 0
  · simpa [h0]
  · simpa [h0] using cacheWF_filter _ s h

theorem cacheWF_cacheSet (k : String) (e : cacheEntry) (s : Store) (h : CacheWF s) :
    CacheWF (cacheSet k e s) := by
  unfold cacheSet CacheWF
  rw [List.map_cons, List.nodup_cons]
  constructor
  · intro hk
    rcases List.mem_map.mp hk with ⟨p, hp, hpk⟩
    have := (List.mem_filter.mp hp).2
    simp only [Bool.not_eq_eq_eq_not, Bool.not_true, decide_eq_false_iff_not] at this
    exact this hpk
  · exact cacheWF_filter _ s h

theorem numToRemove_pos (n : Nat) : 1 ≤ numToRemove n := by
  unfold numToRemove
  split
  · exact Nat.le_refl 1
  · omega

theorem numToRemove_le (n : Nat) (h : 1 ≤ n) : numToRemove n ≤ n := by
  unfold numToRemove
  split
  · exact h
  · exact Nat.div_le_self n 10

/-- Exact size of the capacity eviction on a well-formed nonempty store:
precisely `numToRemove` entries are deleted. -/
theorem evictOldest_length (s : Store) (hwf : CacheWF s) (hne : s ≠ []) :
    (evictOldest s).length = s.length - numToRemove s.length := by
  have hlen : s.length ≠ 0 := fun h => hne (List.length_eq_zero.mp h)
  unfold evictOldest
  simp only [hlen, if_false]
  set sorted := List.insertionSort expiryLE s with hsorted
  set r := numToRemove s.length with hr
  set toRemove := List.map Prod.fst (sorted.take r) with htr
  have hperm : sorted.Perm s := List.perm_insertionSort expiryLE s
  have hkeysnodup : (List.map Prod.fst sorted).Nodup :=
    (List.Perm.nodup_iff (List.Perm.map Prod.fst hperm)).mpr hwf
  have hsplit : sorted.take r ++ sorted.drop r = sorted := List.take_append_drop r sorted
  have hkeys : List.map Prod.fst (sorted.take r) ++ List.map Prod.fst (sorted.drop r)
      = List.map Prod.fst sorted := by
    rw [← List.map_append, hsplit]
  have hdisj : ∀ x, x ∈ List.map Prod.fst (sorted.take r) →
      x ∉ List.map Prod.fst (sorted.drop r) := by
    intro x hx
    have := List.nodup_append.mp (hkeys ▸ hkeysnodup)
    exact this.2.2 hx
  have hfilterperm :
      (List.filter (fun p => ! decide (p.1 ∈ toRemove)) s).Perm
        (List.filter (fun p => ! decide (p.1 ∈ toRemove)) sorted) :=
    List.Perm.filter _ hperm.symm
  have htkfilter : List.filter (fun p => ! decide (p.1 ∈ toRemove)) (sorted.take r) = [] := by
    rw [List.filter_eq_nil_iff]
    intro p hp
    simp only [Bool.not_eq_eq_eq_not, Bool.not_true, decide_eq_false_iff_not, Decidable.not_not]
    exact htr ▸ List.mem_map_of_mem Prod.fst hp
  have hdrfilter : List.filter (fun p => ! decide (p.1 ∈ toRemove)) (sorted.drop r)
      = sorted.drop r := by
    rw [List.filter_eq_self]
    intro p hp
    simp only [Bool.not_eq_eq_eq_not, Bool.not_true, decide_eq_false_iff_not]
    intro hmem
    exact hdisj p.1 (htr ▸ hmem) (List.mem_map_of_mem Prod.fst hp)
  have : List.filter (fun p => ! decide (p.1 ∈ toRemove)) sorted = sorted.drop r := by
    rw [← hsplit, List.filter_append, htkfilter, hdrfilter]
    simp
  rw [List.Perm.length_eq hfilterperm, this, List.length_drop,
    List.Perm.length_eq hperm]

/-- Every entry deleted by the capacity eviction expires no later than every
entry it keeps. -/
theorem evictOldest_soonest (s : Store) (hwf : CacheWF s)
    (p q : String × cacheEntry) (hp : p ∈ s) (hpout : p ∉ evictOldest s)
    (hq : q ∈ evictOldest s) : p.2.expiry ≤ q.2.expiry := by
  by_cases h0 : s.length = 0
  · rw [List.length_eq_zero.mp h0] at hp
    exact absurd hp (List.not_mem_nil p)
  unfold evictOldest at hpout hq
  simp only [h0, if_false] at hpout hq
  set sorted := List.insertionSort expiryLE s with hsorted
  set r := numToRemove s.length with hr
  set toRemove := List.map Prod.fst (sorted.take r) with htr
  have hperm : sorted.Perm s := List.perm_insertionSort expiryLE s
  have hkeysnodup : (List.map Prod.fst sorted).Nodup :=
    (List.Perm.nodup_iff (List.Perm.map Prod.fst hperm)).mpr hwf
  have hsplit : sorted.take r ++ sorted.drop r = sorted := List.take_append_drop r sorted
  have hkeys : List.map Prod.fst (sorted.take r) ++ List.map Prod.fst (sorted.drop r)
      = List.map Prod.fst sorted := by
    rw [← List.map_append, hsplit]
  have hdisj : ∀ x, x ∈ List.map Prod.fst (sorted.take r) →
      x ∉ List.map Prod.fst (sorted.drop r) := by
    intro x hx
    have := List.nodup_append.mp (hkeys ▸ hkeysnodup)
    exact this.2.2 hx
  have hpkey : p.1 ∈ toRemove := by
    by_contra hcon
    exact hpout (List.mem_filter.mpr ⟨hp, by
      simp only [Bool.not_eq_eq_eq_not, Bool.not_true, decide_eq_false_iff_not]
      exact hcon⟩)
  have hqmem := List.mem_filter.mp hq
  have hqkey : q.1 ∉ toRemove := by
    have := hqmem.2
    simpa only [Bool.not_eq_eq_eq_not, Bool.not_true, decide_eq_false_iff_not] using this
  have hptake : p ∈ sorted.take r := by
    have hpsorted : p ∈ sorted := (List.Perm.mem_iff hperm).mpr hp
    rcases (List.mem_append.mp (hsplit ▸ hpsorted)) with h | h
    · exact h
    · exact absurd (List.mem_map_of_mem Prod.fst h) (fun hh => hdisj p.1 (htr ▸ hpkey) hh)
  have hqdrop : q ∈ sorted.drop r := by
    have hqsorted : q ∈ sorted := (List.Perm.mem_iff hperm).mpr hqmem.1
    rcases (List.mem_append.mp (hsplit ▸ hqsorted)) with h | h
    · exact absurd (htr ▸ List.mem_map_of_mem Prod.fst h) hqkey
    · exact h
  have hsortedsorted : List.Sorted expiryLE sorted := List.sorted_insertionSort expiryLE s
  exact List.Sorted.rel_of_mem_take_of_mem_drop hsortedsorted hptake hqdrop

theorem cacheSet_length (k : String) (e : cacheEntry) (s : Store) :
    (cacheSet k e s).length ≤ s.length + 1 := by
  unfold cacheSet
  simpa using Nat.add_le_add_right (List.length_filter_le _ s) 1

/-- The common write path (sweep, capacity-evict, insert) keeps the store
well-formed and within `maxSize` entries. -/
theorem writePath_invariant (now maxSize : Nat) (k : String) (e : cacheEntry) (s : Store)
    (hmax : 1 ≤ maxSize) (hwf : CacheWF s) (hle : s.length ≤ maxSize) :
    (cacheSet k e (capacityStage maxSize (evictExpired now s))).length ≤ maxSize
    ∧ CacheWF (cacheSet k e (capacityStage maxSize (evictExpired now s))) := by
  have h1 : (evictExpired now s).length ≤ s.length := List.length_filter_le _ s
  have hwf1 : CacheWF (evictExpired now s) := cacheWF_evictExpired now s hwf
  constructor
  · unfold capacityStage
    split
    · rename_i hcap
      have hne : evictExpired now s ≠ [] := by
        intro hnil
        rw [hnil] at hcap
        simp at hcap
        omega
      have hlen := evictOldest_length (evictExpired now s) hwf1 hne
      have := cacheSet_length k e (evictOldest (evictExpired now s))
      have hpos := numToRemove_pos (evictExpired now s).length
      omega
    · rename_i hcap
      have := cacheSet_length k e (evictExpired now s)
      omega
  · unfold capacityStage
    split
    · exact cacheWF_cacheSet k e _ (cacheWF_evictOldest _ hwf1)
    · exact cacheWF_cacheSet k e _ hwf1

/-- Any sequence of timestamped insertions preserves well-formedness and the
capacity bound. -/
theorem applyOps_invariant (ttl maxSize : Nat) (ops : List (Nat × CacheOp)) (s : Store)
    (hmax : 1 ≤ maxSize) (hwf : CacheWF s) (hle : s.length ≤ maxSize) :
    (applyOps ttl maxSize ops s).length ≤ maxSize
    ∧ CacheWF (applyOps ttl maxSize ops s) := by
  induction ops generalizing s with
  | nil => exact ⟨hle, hwf⟩
  | cons op rest ih =>
    have hstep :
        (applyOp ttl maxSize op s).length ≤ maxSize ∧ CacheWF (applyOp ttl maxSize op s) := by
      cases hop : op.2 with
      | priceOp t p =>
        simpa [applyOp, hop, setCachedPrice] using
          writePath_invariant op.1 maxSize t { price := p, expiry := op.1 + ttl } s hmax hwf hle
      | historyOp kk hh =>
        simpa [applyOp, hop, setCachedHistory] using
          writePath_invariant op.1 maxSize kk { history := hh, expiry := op.1 + ttl } s hmax hwf hle
    have : applyOps ttl maxSize (op :: rest) s
        = applyOps ttl maxSize rest (applyOp ttl maxSize op s) := rfl
    rw [this]
    exact ih (applyOp ttl maxSize op s) hstep.2 hstep.1

/-! ## Claim theorems: cache -/

/-- Claim C3 (confirmed): starting from any well-formed store within the
bound — in particular from the empty store, so for any number of distinct
insertions including `maxSize + 1` — every sequence of cache insertions
leaves at most `maxSize` entries once each insertion completes, and every
entry removed by the synchronous capacity eviction expires no later than
every entry it keeps. -/
theorem C3_cache_capacity (ttl maxSize : Nat) (ops : List (Nat × CacheOp))
    (hmax : 1 ≤ maxSize) :
    (applyOps ttl maxSize ops []).length ≤ maxSize
    ∧ (∀ s : Store, CacheWF s → ∀ p q : String × cacheEntry,
        p ∈ s → p ∉ evictOldest s → q ∈ evictOldest s → p.2.expiry ≤ q.2.expiry) :=
  ⟨(applyOps_invariant ttl maxSize ops [] hmax (by simp [CacheWF]) (by simp)).1,
   fun s hwf p q hp hpo hq => evictOldest_soonest s hwf p q hp hpo hq⟩

/-- Witness for C3: three insertions into a store of capacity 2 leave at
most 2 entries. -/
theorem C3_cache_capacity_witness :
    (applyOps 10 2
      [(0, CacheOp.priceOp "A" 1), (0, CacheOp.priceOp "B" 2), (0, CacheOp.priceOp "C" 3)]
      []).length ≤ 2 :=
  (C3_cache_capacity 10 2
    [(0, CacheOp.priceOp "A" 1), (0, CacheOp.priceOp "B" 2), (0, CacheOp.priceOp "C" 3)]
    (by decide)).1

/-- Counterexample to claim C5 as stated: the expired-entry sweep does not
remove every entry with `expiresAt <= now` — an entry expiring exactly at
`now` survives the sweep (`time.Now().After(expiry)` is strict). -/
theorem C5_sweep_boundary_counterexample :
    ("A", ({ expiry := 5 } : cacheEntry)) ∈ evictExpired 5 [("A", { expiry := 5 })]
    ∧ ({ expiry := 5 } : cacheEntry).expiry ≤ 5 := by
  constructor
  · decide
  · decide

/-- Claim C5 (amended): the put path runs, in order, the expired-entry sweep
(removing exactly the entries with `expiresAt < now`; entries expiring at
`now` are kept), then — only if still at capacity — the capacity eviction,
which removes exactly `max(count/10, 1)` entries, then stores the entry. -/
theorem C5_put_pipeline (now ttl maxSize : Nat) (k : String) (pr : Rat)
    (hist : List HistoricalPricePoint) (store : Store) :
    setCachedPrice now ttl maxSize k pr store
      = cacheSet k { price := pr, expiry := now + ttl }
          (capacityStage maxSize (evictExpired now store))
    ∧ setCachedHistory now ttl maxSize k hist store
      = cacheSet k { history := hist, expiry := now + ttl }
          (capacityStage maxSize (evictExpired now store))
    ∧ (∀ p : String × cacheEntry,
        p ∈ evictExpired now store ↔ p ∈ store ∧ ¬ p.2.expiry < now)
    ∧ (∀ s : Store, CacheWF s → s ≠ [] →
        (evictOldest s).length = s.length - numToRemove s.length
        ∧ numToRemove s.length = (if s.length / 10 < 1 then 1 else s.length / 10)
        ∧ 1 ≤ numToRemove s.length) := by
  refine ⟨rfl, rfl, ?_, ?_⟩
  · intro p
    unfold evictExpired
    rw [List.mem_filter]
    simp
  · intro s hwf hne
    exact ⟨evictOldest_length s hwf hne, rfl, numToRemove_pos s.length⟩

/-- Witness for C5: the pipeline shape and the eviction count at a concrete
store of twelve never-expiring entries (capacity eviction removes one). -/
theorem C5_put_pipeline_witness :
    (("B", ({ expiry := 9 } : cacheEntry)) ∈ evictExpired 5 [("B", { expiry := 9 })]
      ↔ ("B", ({ expiry := 9 } : cacheEntry)) ∈ ([("B", { expiry := 9 })] : Store)
        ∧ ¬ ({ expiry := 9 } : cacheEntry).expiry < 5)
    ∧ (evictOldest [("A", { expiry := 3 }), ("B", { expiry := 9 })]).length
        = ([("A", { expiry := 3 }), ("B", { expiry := 9 })] : Store).length
          - numToRemove ([("A", { expiry := 3 }), ("B", { expiry := 9 })] : Store).length :=
  ⟨(C5_put_pipeline 5 1 10 "X" 0 [] [("B", { expiry := 9 })]).2.2.1
      ("B", ({ expiry := 9 } : cacheEntry)),
   ((C5_put_pipeline 5 1 10 "X" 0 [] []).2.2.2
      [("A", { expiry := 3 }), ("B", { expiry := 9 })] (by decide) (by decide)).1⟩

/-- Counterexample to claim C6 as stated: a read at exactly the expiry
instant is *not* treated as absent — the entry is still returned, because
the code's check `time.Now().After(entry.expiry)` is strict. -/
theorem C6_read_at_expiry_counterexample :
    getCachedPrice 5 "AAPL" [("AAPL", { price := 150, expiry := 5 })] = some 150 := by
  decide

/-- Claim C6 (amended): a cache read is absent for never-inserted keys and
for entries strictly past their expiry, even before physical eviction; an
entry is readable while `now ≤ expiresAt` (so a read exactly at the expiry
instant still returns the entry). -/
theorem C6_lazy_expiry (now : Nat) (k : String) (store : Store) :
    (lookupKey k store = none →
      getCachedPrice now k store = none ∧ getCachedHistory now k store = none)
    ∧ (∀ e : cacheEntry, lookupKey k store = some e → e.expiry < now →
        getCachedPrice now k store = none ∧ getCachedHistory now k store = none)
    ∧ (∀ e : cacheEntry, lookupKey k store = some e → now ≤ e.expiry →
        getCachedPrice now k store = some e.price
        ∧ getCachedHistory now k store = some e.history) := by
  refine ⟨?_, ?_, ?_⟩
  · intro h
    simp [getCachedPrice, getCachedHistory, h]
  · intro e he hexp
    simp [getCachedPrice, getCachedHistory, he, hexp]
  · intro e he hexp
    have : ¬ e.expiry < now := Nat.not_lt.mpr hexp
    simp [getCachedPrice, getCachedHistory, he, this]

/-- Witness for C6: concrete reads — a missing key, an expired entry, and a
still-valid entry. -/
theorem C6_lazy_expiry_witness :
    (getCachedPrice 7 "X" [] = none ∧ getCachedHistory 7 "X" [] = none)
    ∧ (getCachedPrice 7 "AAPL" [("AAPL", { price := 150, expiry := 5 })] = none
        ∧ getCachedHistory 7 "AAPL" [("AAPL", { price := 150, expiry := 5 })] = none)
    ∧ (getCachedPrice 4 "AAPL" [("AAPL", { price := 150, expiry := 5 })] = some 150
        ∧ getCachedHistory 4 "AAPL" [("AAPL", { price := 150, expiry := 5 })] = some []) :=
  ⟨(C6_lazy_expiry 7 "X" []).1 rfl,
   (C6_lazy_expiry 7 "AAPL" [("AAPL", { price := 150, expiry := 5 })]).2.1
      { price := 150, expiry := 5 } rfl (by decide),
   (C6_lazy_expiry 4 "AAPL" [("AAPL", { price := 150, expiry := 5 })]).2.2
      { price := 150, expiry := 5 } rfl (by decide)⟩

/-! ## Claim theorems: alerts -/

/-- Claim C4 (confirmed): the trigger predicate is exactly
`(condition==Above && price>threshold) || (condition==Below && price<threshold)`,
with strict comparisons, so a price equal to the threshold never triggers. -/
theorem C4_strict_threshold (c : AlertCondition) (price threshold : Rat) :
    alertTriggered c price threshold
      = ((decide (c = AlertCondition.above) && decide (threshold < price))
          || (decide (c = AlertCondition.below) && decide (price < threshold)))
    ∧ alertTriggered c threshold threshold = false := by
  cases c <;> simp [alertTriggered]

/-- Claim C8 (confirmed): `CreateAlert` derives the id deterministically from
(symbol, condition, threshold); a second create with the same triple yields
the same id, its record (including a different webhook URL) overwrites the
first, and the registry holds exactly one entry under that id. -/
theorem C8_idempotent_create (reg : Registry) (t : String) (c : AlertCondition)
    (th : Rat) (u1 u2 : String) (n1 n2 : Nat) :
    (CreateAlert n1 t c th u1 reg).1.id
      = (CreateAlert n2 t c th u2 (CreateAlert n1 t c th u1 reg).2).1.id
    ∧ lookupAlert (alertID t c th) (CreateAlert n2 t c th u2 (CreateAlert n1 t c th u1 reg).2).2
      = some (CreateAlert n2 t c th u2 (CreateAlert n1 t c th u1 reg).2).1
    ∧ countKey (alertID t c th) (CreateAlert n2 t c th u2 (CreateAlert n1 t c th u1 reg).2).2 = 1
    ∧ (CreateAlert n2 t c th u2 (CreateAlert n1 t c th u1 reg).2).1.webhookURL = u2 := by
  refine ⟨rfl, ?_, ?_, rfl⟩
  · simp [CreateAlert, regSet, lookupAlert]
  · simp only [CreateAlert, regSet, countKey, List.filter_cons, decide_True,
      List.filter_filter]
    simp

/-- Claim C2 (confirmed): the only lifecycle transition is
active → inactive-with-`triggeredAt`, it happens at most once, and an
evaluation pass skips inactive alerts entirely: it leaves them unchanged,
sends no webhook for them, and never sets `active` back to `true`. -/
theorem C2_trigger_once (deliver deliver2 : String → Bool)
    (fetch fetch2 : String → Option Rat) (now now2 : Nat) (a : Alert) :
    (a.active = false → checkAlertStep deliver fetch now a = (a, []))
    ∧ ((checkAlertStep deliver fetch now a).1.active = true →
        (checkAlertStep deliver fetch now a).1 = a ∧ a.active = true)
    ∧ (a.active = true → (checkAlertStep deliver fetch now a).1.active = false →
        (checkAlertStep deliver fetch now a).1.triggeredAt = some now)
    ∧ ((checkAlertStep deliver fetch now a).1.active = false →
        checkAlertStep deliver2 fetch2 now2 (checkAlertStep deliver fetch now a).1
          = ((checkAlertStep deliver fetch now a).1, []))
    ∧ (∀ alerts : List Alert, (∀ b ∈ alerts, b.active = false) →
        CheckAlerts deliver fetch now alerts = (alerts, [])) := by
  have hskip : ∀ (d : String → Bool) (f : String → Option Rat) (n : Nat) (b : Alert),
      b.active = false → checkAlertStep d f n b = (b, []) := by
    intro d f n b hb
    simp [checkAlertStep, hb]
  refine ⟨hskip deliver fetch now a, ?_, ?_, ?_, ?_⟩
  · intro h
    by_cases hact : a.active = false
    · rw [hskip deliver fetch now a hact]
      exact ⟨rfl, by rw [hskip deliver fetch now a hact] at h; exact absurd h (by simp [hact])⟩
    · have hact' : a.active = true := by
        cases h2 : a.active
        · exact absurd h2 hact
        · rfl
      unfold checkAlertStep at h ⊢
      simp only [hact', Bool.true_eq_false, if_false] at h ⊢
      cases hf : fetch a.ticker with
      | none => simp [hf]
      | some price =>
        simp only [hf] at h ⊢
        by_cases htr : alertTriggered a.condition price a.threshold = true
        · simp only [htr, if_true] at h
          simp at h
        · simp only [Bool.not_eq_true] at htr
          simp [htr, hact']
  · intro hact hres
    unfold checkAlertStep at hres ⊢
    simp only [hact, Bool.true_eq_false, if_false] at hres ⊢
    cases hf : fetch a.ticker with
    | none => simp [hf] at hres; rw [hres] at hact; simp at hact
    | some price =>
      simp only [hf] at hres ⊢
      by_cases htr : alertTriggered a.condition price a.threshold = true
      · simp [htr]
      · simp only [Bool.not_eq_true] at htr
        simp only [htr, Bool.false_eq_true, if_false] at hres
        rw [hres] at hact
        simp at hact
  · intro h
    exact hskip deliver2 fetch2 now2 _ h
  · intro alerts hall
    have h12 : ∀ l : List Alert, (∀ b ∈ l, b.active = false) →
        List.map (fun b => (checkAlertStep deliver fetch now b).1) l = l
        ∧ (l.flatMap fun b => (checkAlertStep deliver fetch now b).2) = [] := by
      intro l
      induction l with
      | nil => exact fun _ => ⟨rfl, rfl⟩
      | cons b bs ih =>
        intro hl
        have hb := hskip deliver fetch now b (hl b (List.mem_cons_self b bs))
        have ihr := ih (fun x hx => hl x (List.mem_cons_of_mem b hx))
        refine ⟨?_, ?_⟩
        · simp only [List.map_cons, hb, ihr.1]
        · simp only [List.flatMap_cons, hb, ihr.2, List.nil_append]
    unfold CheckAlerts
    rw [(h12 alerts hall).1, (h12 alerts hall).2]

/-- Witness for C2: a concrete already-triggered (inactive) alert is left
untouched by a pass, with no webhook call. -/
theorem C2_trigger_once_witness :
    checkAlertStep (fun _ => true) (fun _ => some 101) 7
      { id := "AAPL-above-100.00", ticker := "AAPL", condition := AlertCondition.above,
        threshold := 100, webhookURL := "http://hook", active := false,
        createdAt := 0, triggeredAt := some 3 }
      = ({ id := "AAPL-above-100.00", ticker := "AAPL", condition := AlertCondition.above,
           threshold := 100, webhookURL := "http://hook", active := false,
           createdAt := 0, triggeredAt := some 3 }, []) :=
  (C2_trigger_once (fun _ => true) (fun _ => true) (fun _ => some 101) (fun _ => some 101)
    7 8 _).1 rfl

/-- Claim C9 (confirmed): when an active alert's condition is observed true,
the webhook notifier is invoked (exactly one `sendWebhook` call is recorded)
and the alert transitions to inactive with `triggeredAt = now` — and the
resulting alert state is identical under every delivery outcome, so a
failed delivery neither prevents nor rolls back the transition. -/
theorem C9_webhook_failure_no_rollback (d1 d2 : String → Bool)
    (fetch : String → Option Rat) (now : Nat) (a : Alert) (price : Rat)
    (hact : a.active = true) (hf : fetch a.ticker = some price)
    (htr : alertTriggered a.condition price a.threshold = true) :
    checkAlertStep d1 fetch now a
      = ({ a with active := false, triggeredAt := some now },
         [(a.id, price, sendWebhook d1 a price)])
    ∧ (checkAlertStep d1 fetch now a).1 = (checkAlertStep d2 fetch now a).1 := by
  constructor
  · unfold checkAlertStep
    simp [hact, hf, htr]
  · unfold checkAlertStep
    simp [hact, hf, htr]

/-- Witness for C9: a concrete triggered alert whose delivery fails still
transitions to inactive with `triggeredAt` set. -/
theorem C9_webhook_failure_no_rollback_witness :
    checkAlertStep (fun _ => false) (fun _ => some 101) 9
      { id := "AAPL-above-100.00", ticker := "AAPL", condition := AlertCondition.above,
        threshold := 100, webhookURL := "http://hook", active := true,
        createdAt := 0, triggeredAt := none }
      = ({ id := "AAPL-above-100.00", ticker := "AAPL", condition := AlertCondition.above,
           threshold := 100, webhookURL := "http://hook", active := false,
           createdAt := 0, triggeredAt := some 9 },
         [("AAPL-above-100.00", 101, false)]) :=
  (C9_webhook_failure_no_rollback (fun _ => false) (fun _ => true) (fun _ => some 101) 9
    { id := "AAPL-above-100.00", ticker := "AAPL", condition := AlertCondition.above,
      threshold := 100, webhookURL := "http://hook", active := true,
      createdAt := 0, triggeredAt := none }
    101 rfl rfl (by decide)).1

/-- Claim C10 (confirmed): the id formats the threshold with two decimals,
so the genuinely different thresholds 100.001 and 100.004 produce the same
id, and the second create silently overwrites the first record. -/
theorem C10_id_collision_overwrite :
    (100.001 : Rat) ≠ (100.004 : Rat)
    ∧ alertID "AAPL" AlertCondition.above (100.001 : Rat)
        = alertID "AAPL" AlertCondition.above (100.004 : Rat)
    ∧ (CreateAlert 1 "AAPL" AlertCondition.above (100.004 : Rat) "http://b"
          (CreateAlert 0 "AAPL" AlertCondition.above (100.001 : Rat) "http://a" []).2).2
        = [(alertID "AAPL" AlertCondition.above (100.004 : Rat),
            (CreateAlert 1 "AAPL" AlertCondition.above (100.004 : Rat) "http://b"
              (CreateAlert 0 "AAPL" AlertCondition.above (100.001 : Rat) "http://a" []).2).1)]
    ∧ (CreateAlert 1 "AAPL" AlertCondition.above (100.004 : Rat) "http://b"
          (CreateAlert 0 "AAPL" AlertCondition.above (100.001 : Rat) "http://a" []).2).1.webhookURL
        = "http://b" := by
  have hr1 : round2f (100.001 : Rat) = 10000 := by
    unfold round2f
    norm_num
  have hr2 : round2f (100.004 : Rat) = 10000 := by
    unfold round2f
    norm_num
  have hid1 : alertID "AAPL" AlertCondition.above (100.001 : Rat) = "AAPL-above-100.00" := by
    unfold alertID format2f
    rw [hr1]
    rfl
  have hid2 : alertID "AAPL" AlertCondition.above (100.004 : Rat) = "AAPL-above-100.00" := by
    unfold alertID format2f
    rw [hr2]
    rfl
  refine ⟨by norm_num, by rw [hid1, hid2], ?_, rfl⟩
  simp only [CreateAlert, regSet, hid1, hid2]
  simp

/-! ## Helper lemmas: batch fetch accumulation -/

theorem lookupPrice_filter_ne (k k2 : String) (m : List (String × Rat)) (h : k2 ≠ k) :
    lookupPrice k2 (m.filter (fun p => ! decide (p.1 = k))) = lookupPrice k2 m := by
  induction m with
  | nil => rfl
  | cons q rest ih =>
    obtain ⟨a, b⟩ := q
    by_cases hq : a = k
    · subst hq
      have hne : ¬ (a = k2) := fun hh => h hh.symm
      simp [List.filter_cons, lookupPrice, hne, ih]
    · by_cases hq2 : a = k2
      · simp [List.filter_cons, lookupPrice, hq, hq2, h]
      · simp [List.filter_cons, lookupPrice, hq, hq2, ih]

theorem lookupPrice_mapSet_self (k : String) (v : Rat) (m : List (String × Rat)) :
    lookupPrice k (mapSet k v m) = some v := by
  simp [mapSet, lookupPrice]

theorem lookupPrice_mapSet_ne (k k2 : String) (v : Rat) (m : List (String × Rat))
    (h : k2 ≠ k) : lookupPrice k2 (mapSet k v m) = lookupPrice k2 m := by
  unfold mapSet
  rw [lookupPrice]
  simp only [show k ≠ k2 from fun hh => h hh.symm, if_false]
  exact lookupPrice_filter_ne k k2 m h

theorem mockBatchGo_fst_nil_iff (ts : List String)
    (acc : List (String × Rat) × List String) :
    (mockBatchGo acc ts).1 = [] ↔ acc.1 = [] ∧ ∀ t ∈ ts, fetchOk t = false := by
  induction ts generalizing acc with
  | nil => simp [mockBatchGo]
  | cons t rest ih =>
    cases hft : MockPriceFetcher t with
    | ok p =>
      have hok : fetchOk t = true := by simp [fetchOk, hft]
      have hne : ∀ (m : List (String × Rat)) l2,
          (mockBatchGo (mapSet t p m, l2) rest).1 ≠ [] := by
        intro m l2 hnil
        have := (ih (mapSet t p m, l2)).mp hnil
        exact absurd this.1 (by simp [mapSet])
      simp only [mockBatchGo, hft]
      constructor
      · intro h
        exact absurd h (hne acc.1 acc.2)
      · intro ⟨_, hall⟩
        have := hall t (List.mem_cons_self t rest)
        rw [hok] at this
        exact absurd this (by simp)
    | error e =>
      have hbad : fetchOk t = false := by simp [fetchOk, hft]
      simp only [mockBatchGo, hft]
      rw [ih (acc.1, acc.2 ++ [e])]
      constructor
      · intro ⟨h1, h2⟩
        refine ⟨h1, ?_⟩
        intro x hx
        rcases List.mem_cons.mp hx with hx | hx
        · rw [hx]; exact hbad
        · exact h2 x hx
      · intro ⟨h1, h2⟩
        exact ⟨h1, fun x hx => h2 x (List.mem_cons_of_mem t hx)⟩

theorem mockBatchGo_snd_nil_iff (ts : List String)
    (acc : List (String × Rat) × List String) :
    (mockBatchGo acc ts).2 = [] ↔ acc.2 = [] ∧ ∀ t ∈ ts, fetchOk t = true := by
  induction ts generalizing acc with
  | nil => simp [mockBatchGo]
  | cons t rest ih =>
    cases hft : MockPriceFetcher t with
    | ok p =>
      have hok : fetchOk t = true := by simp [fetchOk, hft]
      simp only [mockBatchGo, hft]
      rw [ih (mapSet t p acc.1, acc.2)]
      constructor
      · intro ⟨h1, h2⟩
        refine ⟨h1, ?_⟩
        intro x hx
        rcases List.mem_cons.mp hx with hx | hx
        · rw [hx]; exact hok
        · exact h2 x hx
      · intro ⟨h1, h2⟩
        exact ⟨h1, fun x hx => h2 x (List.mem_cons_of_mem t hx)⟩
    | error e =>
      have hbad : fetchOk t = false := by simp [fetchOk, hft]
      simp only [mockBatchGo, hft]
      constructor
      · intro h
        have := (ih (acc.1, acc.2 ++ [e])).mp h
        exact absurd this.1 (by simp)
      · intro ⟨_, hall⟩
        have := hall t (List.mem_cons_self t rest)
        rw [hbad] at this
        exact absurd this (by simp)

theorem mockBatchGo_lookup_preserved (ts : List String)
    (acc : List (String × Rat) × List String) (t : String) (p : Rat)
    (hft : MockPriceFetcher t = Except.ok p)
    (hacc : lookupPrice t acc.1 = some p) :
    lookupPrice t (mockBatchGo acc ts).1 = some p := by
  induction ts generalizing acc with
  | nil => exact hacc
  | cons t2 rest ih =>
    cases hft2 : MockPriceFetcher t2 with
    | ok p2 =>
      simp only [mockBatchGo, hft2]
      refine ih (mapSet t2 p2 acc.1, acc.2) ?_
      by_cases heq : t = t2
      · have : p2 = p := by
          rw [← heq, hft] at hft2
          exact ((Except.ok.injEq p p2).mp hft2).symm
        rw [heq, this]
        exact lookupPrice_mapSet_self t2 p acc.1
      · rw [lookupPrice_mapSet_ne t2 t p2 acc.1 heq]
        exact hacc
    | error e =>
      simp only [mockBatchGo, hft2]
      exact ih (acc.1, acc.2 ++ [e]) hacc

theorem mockBatchGo_lookup_found (ts : List String)
    (acc : List (String × Rat) × List String) (t : String) (p : Rat)
    (hmem : t ∈ ts) (hft : MockPriceFetcher t = Except.ok p) :
    lookupPrice t (mockBatchGo acc ts).1 = some p := by
  induction ts generalizing acc with
  | nil => exact absurd hmem (List.not_mem_nil t)
  | cons t2 rest ih =>
    rcases List.mem_cons.mp hmem with heq | hmem2
    · subst heq
      simp only [mockBatchGo, hft]
      exact mockBatchGo_lookup_preserved rest (mapSet t p acc.1, acc.2) t p hft
        (lookupPrice_mapSet_self t p acc.1)
    · cases hft2 : MockPriceFetcher t2 with
      | ok p2 =>
        simp only [mockBatchGo, hft2]
        exact ih (mapSet t2 p2 acc.1, acc.2) hmem2
      | error e =>
        simp only [mockBatchGo, hft2]
        exact ih (acc.1, acc.2 ++ [e]) hmem2

/-! ## Claim theorems: batch fetch -/

/-- Counterexample to claim C1 as stated: on partial success the batch call
returns *only* the map of resolved pairs — the recorded per-symbol errors
are not part of the return value, even though one error was recorded. -/
theorem C1_partial_success_drops_errors :
    MockBatchPriceFetcher ["AAPL", "INVALID"] = Except.ok [("AAPL", 150)]
    ∧ (mockBatchAccum ["AAPL", "INVALID"]).2 = ["price not found for INVALID"] :=
  ⟨rfl, rfl⟩

/-- Claim C1 (amended): the batch fetch fails overall exactly when zero
symbols resolved and at least one symbol was requested (hence at least one
per-symbol error occurred); otherwise it returns the map of resolved pairs
with no overall error (the recorded per-symbol errors are internal only);
and a symbol that resolves is always present in the returned map, so a
sibling's failure never aborts it. -/
theorem C1_batch_verdict (tickers : List String) :
    ((∃ e, MockBatchPriceFetcher tickers = Except.error e)
        ↔ ((∀ t ∈ tickers, fetchOk t = false) ∧ tickers ≠ []))
    ∧ (∀ t p, t ∈ tickers → MockPriceFetcher t = Except.ok p →
        MockBatchPriceFetcher tickers = Except.ok (mockBatchAccum tickers).1
        ∧ lookupPrice t (mockBatchAccum tickers).1 = some p) := by
  constructor
  · have hcond : (∃ e, MockBatchPriceFetcher tickers = Except.error e)
        ↔ ((mockBatchAccum tickers).1.length = 0 ∧ 0 < (mockBatchAccum tickers).2.length) := by
      unfold MockBatchPriceFetcher
      split_ifs with hc
      · simp [hc]
      · constructor
        · rintro ⟨e, he⟩
          exact he.elim
        · intro h
          exact absurd h hc
    rw [hcond]
    have h1 : (mockBatchAccum tickers).1.length = 0
        ↔ ∀ t ∈ tickers, fetchOk t = false := by
      rw [List.length_eq_zero]
      unfold mockBatchAccum
      rw [mockBatchGo_fst_nil_iff]
      simp
    have h2 : 0 < (mockBatchAccum tickers).2.length
        ↔ ¬ ∀ t ∈ tickers, fetchOk t = true := by
      rw [Nat.pos_iff_ne_zero, Ne, List.length_eq_zero]
      unfold mockBatchAccum
      rw [mockBatchGo_snd_nil_iff]
      simp
    rw [h1, h2]
    constructor
    · intro ⟨hall, hnotall⟩
      refine ⟨hall, ?_⟩
      intro hnil
      subst hnil
      exact hnotall (fun t ht => absurd ht (List.not_mem_nil t))
    · intro ⟨hall, hne⟩
      refine ⟨hall, ?_⟩
      intro hallok
      rcases List.exists_mem_of_ne_nil tickers hne with ⟨t0, ht0⟩
      have := hallok t0 ht0
      rw [hall t0 ht0] at this
      exact absurd this (by simp)
  · intro t p hmem hft
    have hlook : lookupPrice t (mockBatchAccum tickers).1 = some p :=
      mockBatchGo_lookup_found tickers ([], []) t p hmem hft
    have hne : (mockBatchAccum tickers).1 ≠ [] := by
      intro hnil
      rw [hnil] at hlook
      exact absurd hlook (by simp [lookupPrice])
    have hcond : ¬ ((mockBatchAccum tickers).1.length = 0
        ∧ 0 < (mockBatchAccum tickers).2.length) := by
      intro ⟨hc, _⟩
      exact hne (List.length_eq_zero.mp hc)
    constructor
    · unfold MockBatchPriceFetcher
      rw [if_neg hcond]
    · exact hlook

/-- Witness for C1: the mixed batch succeeds overall and carries AAPL's
price despite the sibling failure. -/
theorem C1_batch_verdict_witness :
    MockBatchPriceFetcher ["AAPL", "INVALID"]
      = Except.ok (mockBatchAccum ["AAPL", "INVALID"]).1
    ∧ lookupPrice "AAPL" (mockBatchAccum ["AAPL", "INVALID"]).1 = some 150 :=
  (C1_batch_verdict ["AAPL", "INVALID"]).2 "AAPL" 150 (by decide) rfl

/-! ## Claim theorems: price history ordering -/

/-- Claim C7 (code bug): `FetchPriceHistory` only reverses the Go map's
(randomized) iteration order and never sorts, so when the iteration yields
the two days in ascending order the returned slice is descending — the core
does not establish ascending date order. The mock path, by contrast, does
return its five candles ascending. -/
theorem C7_history_reverse_not_sorted :
    fetchPriceHistoryCore
        [("2024-01-01", ⟨1, 2, 3, 4⟩), ("2024-01-02", ⟨5, 6, 7, 8⟩)] "" ""
      = [⟨"2024-01-02", 5, 6, 7, 8⟩, ⟨"2024-01-01", 1, 2, 3, 4⟩]
    ∧ datesAscending
        (fetchPriceHistoryCore
          [("2024-01-01", ⟨1, 2, 3, 4⟩), ("2024-01-02", ⟨5, 6, 7, 8⟩)] "" "") = false
    ∧ datesAscending
        (fetchPriceHistoryCore
          [("2024-01-02", ⟨5, 6, 7, 8⟩), ("2024-01-01", ⟨1, 2, 3, 4⟩)] "" "") = true
    ∧ (∀ hist : List HistoricalPricePoint,
        MockPriceHistoryFetcher "AAPL" = Except.ok hist → datesAscending hist = true) := by
  refine ⟨rfl, by decide, by decide, ?_⟩
  intro hist h
  have : hist
      = [ ⟨"2024-01-01", 145, 155, 140, 148⟩,
          ⟨"2024-01-02", 148, 153, 145, 151⟩,
          ⟨"2024-01-03", 151, 158, 147, 155⟩,
          ⟨"2024-01-04", 155, 160, 150, 153⟩,
          ⟨"2024-01-05", 153, 157, 151, 156⟩ ] := by
    have h2 : MockPriceHistoryFetcher "AAPL"
        = Except.ok [ ⟨"2024-01-01", 145, 155, 140, 148⟩,
            ⟨"2024-01-02", 148, 153, 145, 151⟩,
            ⟨"2024-01-03", 151, 158, 147, 155⟩,
            ⟨"2024-01-04", 155, 160, 150, 153⟩,
            ⟨"2024-01-05", 153, 157, 151, 156⟩ ] := by
      unfold MockPriceHistoryFetcher priceMocks
      norm_num
    rw [h2] at h
    exact ((Except.ok.injEq _ _).mp h).symm
  rw [this]
  decide
